import Mathlib

/-!
Verification of the `cargo-show-asm` core against its specification.

This file gives a shallow embedding, in Lean 4, of the parts of the
repository that the checked claims are about:

* the statement data model and the item extractor `find_items`
  (`src/asm.rs`),
* the renderer `AsmDumpCtx::dump_range_into_writer` and its label-liveness
  helper `used_labels` (`src/asm.rs`),
* the source locator `locate_sources` (`src/asm.rs`),
* the parser driver `parse_file` (`src/asm.rs`),
* the IPC request handler `handle_request` and server loop `start_server`
  (`src/ipc.rs`),
* the finder serialization `serialize` (`src/select.rs`),
* the goal dispatcher `get_dump_range` (`src/lib.rs`).

Code living outside the given sources (the statement sub-parser
`asm/statements.rs`, the demangler `demangle.rs`) is represented either by
oracle parameters or by definitions whose doc comment starts
`Modelled from the spec:`.  File-system access, sockets and process spawning
are represented by explicit oracles / result constructors; a process abort
(`panic` / `exit`) in the source is modelled by a dedicated result
constructor so that "typed failure vs. process termination" is visible in
the embedding.
-/

namespace ShowAsm

/-! ## Generic helpers on character lists

Rust's `str` operations used by the sources are modelled on `List Char`
(the `data` of a Lean `String`); UTF-8 byte order agrees with scalar-value
order, so lexicographic comparison of `List Char` matches Rust's `String`
ordering for the strings at hand. -/
/-- Rust's `starts_with` on character lists. -/
def leadsWith : List Char → List Char → Bool
  | [], _ => true
  | _ :: _, [] => false
  | a :: xs, b :: ys => a == b && leadsWith xs ys

/-- Containment test: `substrOf n h` holds when `n` occurs contiguously
inside `h` (Rust's `str::contains`). -/
def substrOf : List Char → List Char → Bool
  | n, [] => n.isEmpty
  | n, h => leadsWith n h || (match h with
      | [] => false
      | _ :: t => substrOf n t)

/-- Rust's `str::strip_prefix`: remove `pre` from the front of `s` when
present. -/
def dropLead (pre s : String) : Option String :=
  if leadsWith pre.data s.data then some (String.mk (s.data.drop pre.data.length))
  else none

/-- Rust whitespace test restricted to the ASCII whitespace that occurs in
the wire protocol and assembler text. -/
def isWs (c : Char) : Bool :=
  c == ' ' || c == '\t' || c == '\n' || c == '\r'

/-- Rust's `str::trim` on character lists. -/
def trimChars (l : List Char) : List Char :=
  ((l.dropWhile isWs).reverse.dropWhile isWs).reverse

/-- Rust's `str::trim_start` on character lists. -/
def trimStartChars (l : List Char) : List Char :=
  l.dropWhile isWs

/-- Value of a decimal digit list, most significant first. -/
def digitsVal (l : List Char) : Nat :=
  l.foldl (fun n c => n * 10 + (c.toNat - '0'.toNat)) 0

/-- Rust's `usize::from_str` (64-bit): an optional `+` sign, then a
non-empty run of ASCII digits, rejecting anything else and values that do
not fit in 64 bits. -/
def parseUsize (s : List Char) : Option Nat :=
  let digits := match s with
    | '+' :: rest => rest
    | _ => s
  if digits.isEmpty then none
  else if digits.all (fun c => c.isDigit) then
    let n := digitsVal digits
    if n < 2 ^ 64 then some n else none
  else none

/-- Rust's `Iterator::position`: index of the first element satisfying `p`. -/
def position (p : α → Bool) : List α → Option Nat
  | [] => none
  | a :: t => if p a then some 0 else (position p t).map (· + 1)

/-! ## Statement data model

The statement type itself is declared in `asm/statements.rs`, which is not
among the given sources; the shape below follows the spec's §3 data model
(`Label`, `Directive` with its six variants, `Instruction`, `Dunno`,
`Nothing`).  Only the structure that `asm.rs` itself inspects is needed. -/
inductive LabelKind
  | Global
  | Local
  | Temp
  | Unknown
deriving DecidableEq, Repr

structure Label where
  id : String
  kind : LabelKind
deriving DecidableEq, Repr

/-- A `.loc` directive payload.  Modelled from the spec: `Loc` is
`{file, line, column?}`, equality-comparable, with `line == 0` meaning "no
associated source line"; `Loc::default()` is the all-zero / empty value. -/
structure Loc where
  file : Nat
  line : Nat
  column : Option Nat
deriving DecidableEq, Repr

/-- Rust's `Loc::default()`. -/
def Loc.dflt : Loc := ⟨0, 0, none⟩

structure FileDecl where
  index : Nat
  path : String
deriving DecidableEq, Repr

inductive Directive
  | file (f : FileDecl)
  | loc (l : Loc)
  | sectionStart (name : String)
  | set (text : String)
  | subsectionsViaSym
  | generic (text : String)
deriving DecidableEq, Repr

inductive Statement
  | label (l : Label)
  | directive (d : Directive)
  | instruction (mnemonic : String) (args : Option String)
  | dunno (text : String)
  | nothing
deriving DecidableEq, Repr

/-- Modelled from the spec: `Statement::is_section_start` (declared in the
missing `asm/statements.rs`) recognizes a section-start directive. -/
def isSectionStart : Statement → Bool
  | .directive (.sectionStart _) => true
  | _ => false

/-! ## Item extractor (`find_items`, src/asm.rs lines 44-116)

`Statement::is_global` and `Statement::is_end_of_fn` are declared in the
missing `asm/statements.rs`, and `demangle::demangled` in the missing
`demangle.rs`; all three are taken as oracle parameters
(`isGlobal`, `isEnd`, `dem`).  `dem id = some (hashed, name)` models
`demangled(id)` rendered through `format!("{dem:?}")` (the hashed form) and
`format!("{dem:#?}")` (the display name). -/
structure Item where
  name : String
  hashed : String
  index : Nat
  len : Nat
deriving DecidableEq, Repr

/-- The name-occurrence counters (`names : BTreeMap<String, usize>` in the
scan); only lookup-with-default-0 and store are needed. -/
def namesGet (names : List (String × Nat)) (k : String) : Nat :=
  ((names.find? (fun e => e.1 == k)).map (fun e => e.2)).getD 0

def namesSet : List (String × Nat) → String → Nat → List (String × Nat)
  | [], k, v => [(k, v)]
  | e :: t, k, v => if e.1 == k then (k, v) :: t else e :: namesSet t k v

/-- The mutable state of `find_items`' single forward scan: the current
section start, the in-progress item, the occurrence counters and the
sequence of `res.insert(item, range)` calls in scan order.  Ranges are
half-open pairs `(start, end)` of statement indices. -/
structure FIState where
  sec_start : Nat
  item : Option Item
  names : List (String × Nat)
  res : List (Item × (Nat × Nat))
deriving Repr

def FIState.init : FIState := ⟨0, none, [], []⟩

/-- One iteration of the `for (ix, line) in lines.iter().enumerate()` loop
of `find_items` (src/asm.rs lines 51-114), translated branch for branch. -/
def find_step (isGlobal isEnd : Statement → Bool)
    (dem : String → Option (String × String))
    (lines : List Statement) (ix : Nat) (line : Statement)
    (st : FIState) : FIState :=
  if isSectionStart line then
    if st.item.isNone then { st with sec_start := ix } else st
  else if isGlobal line && decide (st.sec_start + 3 < ix) then
    { st with sec_start := ix }
  else if isEnd line then
    match st.item with
    | some it =>
        { st with item := none,
                  res := st.res ++ [({ it with len := ix - it.len }, (st.sec_start, ix))] }
    | none => st
  else
    match line with
    | .label l =>
        match dem l.id with
        | some dm =>
            let name := dm.2
            let cnt := namesGet st.names name
            { st with item := some ⟨name, dm.1, cnt, ix⟩,
                      names := namesSet st.names name (cnt + 1) }
        | none =>
            if l.kind = .Unknown then
              match lines.get? st.sec_start with
              | some (.directive (.sectionStart ss)) =>
                  match dropLead ".text." ss with
                  | some rest =>
                      if leadsWith l.id.data rest.data then
                        let cnt := namesGet st.names l.id
                        { st with item := some ⟨l.id, l.id, cnt, ix⟩,
                                  names := namesSet st.names l.id (cnt + 1) }
                      else st
                  | none => st
              | _ => st
            else st
    | _ => st

/-- The scan loop of `find_items`, indices threaded explicitly. -/
def find_loop (isGlobal isEnd : Statement → Bool)
    (dem : String → Option (String × String)) (lines : List Statement) :
    Nat → List Statement → FIState → FIState
  | _, [], st => st
  | ix, l :: rest, st =>
      find_loop isGlobal isEnd dem lines (ix + 1) rest
        (find_step isGlobal isEnd dem lines ix l st)

/-- The `res.insert` calls of one `find_items` run, in scan order. -/
def find_items_list (isGlobal isEnd : Statement → Bool)
    (dem : String → Option (String × String)) (lines : List Statement) :
    List (Item × (Nat × Nat)) :=
  (find_loop isGlobal isEnd dem lines 0 lines .init).res

/-- Lexicographic comparison of character lists (Rust `String` order). -/
def charsCmp : List Char → List Char → Ordering
  | [], [] => .eq
  | [], _ :: _ => .lt
  | _ :: _, [] => .gt
  | a :: xs, b :: ys =>
      if a < b then .lt else if b < a then .gt else charsCmp xs ys

def natCmp (a b : Nat) : Ordering :=
  if a < b then .lt else if b < a then .gt else .eq

/-- The derived `Ord` of `Item`: by `name`, then `hashed`, then `index`,
then `len`. -/
def itemCmp (a b : Item) : Ordering :=
  match charsCmp a.name.data b.name.data with
  | .eq =>
    match charsCmp a.hashed.data b.hashed.data with
    | .eq =>
      match natCmp a.index b.index with
      | .eq => natCmp a.len b.len
      | o => o
    | o => o
  | o => o

/-- Insertion into the sorted association-list view of the map
(`BTreeMap::insert`). -/
def btreeInsert (k : Item) (v : Nat × Nat) :
    List (Item × (Nat × Nat)) → List (Item × (Nat × Nat))
  | [] => [(k, v)]
  | e :: t =>
    match itemCmp k e.1 with
    | .lt => (k, v) :: e :: t
    | .eq => (k, v) :: t
    | .gt => e :: btreeInsert k v t

def itemMapOf (l : List (Item × (Nat × Nat))) : List (Item × (Nat × Nat)) :=
  l.foldl (fun m e => btreeInsert e.1 e.2 m) []

/-- The final `BTreeMap` contents of `find_items` (src/asm.rs line 44). -/
def find_items (isGlobal isEnd : Statement → Bool)
    (dem : String → Option (String × String)) (lines : List Statement) :
    List (Item × (Nat × Nat)) :=
  itemMapOf (find_items_list isGlobal isEnd dem lines)

/-- Concrete classifier: a global-symbol label statement. -/
def cexGlobal : Statement → Bool
  | .label l => l.kind == .Global
  | _ => false

/-- Concrete classifier: the end-of-function marker of the test sequences. -/
def cexEnd (s : Statement) : Bool := s == .dunno "end"

/-- Concrete demangling oracle that demangles nothing. -/
def cexDem : String → Option (String × String) := fun _ => none

def cexLinesC1 : List Statement :=
  [.nothing, .nothing, .nothing, .label ⟨"g", .Global⟩]

/-- Insertion-order comparison on recorded entries: starts do not
decrease. -/
def startLE (a b : Item × (Nat × Nat)) : Prop := a.2.1 ≤ b.2.1

/-- The scan invariant behind C2: the section start never runs ahead of the
cursor, an item can only be open after at least one statement was seen, and
every recorded range starts no later than the current section start and is
non-empty. -/
def FIInv (ix : Nat) (st : FIState) : Prop :=
  (st.sec_start = 0 ∨ st.sec_start < ix)
  ∧ (st.item = none ∨ 1 ≤ ix)
  ∧ (∀ e ∈ st.res, e.2.1 ≤ st.sec_start ∧ e.2.1 < e.2.2)
  ∧ st.res.Pairwise startLE

def cexLinesC2 : List Statement :=
  [.directive (.sectionStart ".text.foo"), .label ⟨"foo", .Unknown⟩, .dunno "end",
   .label ⟨"foo", .Unknown⟩, .dunno "end"]

/-- Half-open ranges intersect. -/
def rangesOverlap (r1 r2 : Nat × Nat) : Bool :=
  decide (max r1.1 r2.1 < min r1.2 r2.2)

/-! ## Renderer (`AsmDumpCtx::dump_range_into_writer`, src/asm.rs lines 146-235)

The `Format` options structure is declared in the missing `opts.rs`; the
fields below are exactly the ones `asm.rs` reads.  A `writeln!` is modelled
as appending a structured `OutLine` event (the textual `Display` forms live
in the missing `statements.rs`); the two `panic` sites inside the loop (the
undefined DWARF file index at src/asm.rs line 206 and the out-of-bounds
source-line index at line 181) are modelled as `Except.error`. -/
structure Format where
  keep_labels : Bool
  verbosity : Nat
  rust : Bool
  simplify : Bool
  full_name : Bool
deriving DecidableEq, Repr

/-- The referenceable text of a statement (`used_labels`, src/asm.rs lines
118-137): instruction arguments, generic-directive and section-start text,
and unrecognized lines; labels, blanks and the other modelled directives
contribute nothing. -/
def referenceable : Statement → Option String
  | .label _ => none
  | .nothing => none
  | .directive d =>
    match d with
    | .file _ => none
    | .loc _ => none
    | .subsectionsViaSym => none
    | .set _ => none
    | .generic g => some g
    | .sectionStart ss => some ss
  | .instruction _ args => args
  | .dunno s => some s

/-- Modelled from the spec: `demangle::local_labels` (in the missing
`demangle.rs`) extracts local-label-shaped substrings from each
referenceable text, and the renderer keeps a label whose id is in that set;
per spec §4.4 "a label is live iff something in-scope references it" as "a
free-form substring match inside some other statement's
instruction-argument or directive text".  Liveness is modelled directly as
substring occurrence over the referenceable texts of the scope. -/
def label_used (stmts : List Statement) (id : String) : Bool :=
  stmts.any (fun s =>
    match referenceable s with
    | some t => substrOf id.data t.data
    | none => false)

/-- One emission of the renderer. -/
inductive OutLine
  | debug (s : Statement)
  | locMark (fname : String) (line : Nat)
  | locSrc (text : String)
  | locMissing
  | labelLine (l : Label)
  | blank
  | stmt (s : Statement) (full : Bool)
deriving DecidableEq, Repr

/-- The renderer's process-terminating failures (`panic` sites), kept apart
from normal output so that "typed result vs. termination" is observable. -/
inductive DumpFail
  | undefinedLoc (l : Loc)
  | srcLineOOB (l : Loc)
deriving DecidableEq, Repr

structure DumpState where
  prev_loc : Loc
  empty_line : Bool
deriving DecidableEq, Repr

def DumpState.init : DumpState := ⟨Loc.dflt, false⟩

/-- The `files` map: DWARF file index to resolved path and optionally the
cached line array. -/
def FilesMap := List (Nat × (String × Option (List String)))

def filesGet (files : FilesMap) (k : Nat) : Option (String × Option (List String)) :=
  (files.find? (fun e => e.1 == k)).map (fun e => e.2)

def isDirective : Statement → Bool
  | .directive _ => true
  | _ => false

def isDunno : Statement → Bool
  | .dunno _ => true
  | _ => false

/-- The raw per-statement debug trace (`if fmt.verbosity > 2`). -/
def dbgList (fmt : Format) (s : Statement) : List OutLine :=
  if 2 < fmt.verbosity then [OutLine.debug s] else []

/-- One iteration of the renderer's `for line in stmts.iter()` loop
(src/asm.rs lines 163-233), translated branch for branch. -/
def dump_step (fmt : Format) (files : FilesMap) (used : String → Bool)
    (st : DumpState) (line : Statement) :
    Except DumpFail (DumpState × List OutLine) :=
  match line with
  | .directive (.file _) => .ok (st, dbgList fmt line)
  | .directive (.loc loc) =>
      if !fmt.rust then .ok (st, dbgList fmt line)
      else if loc.line = 0 then .ok (st, dbgList fmt line)
      else if loc = st.prev_loc then .ok (st, dbgList fmt line)
      else
        match filesGet files loc.file with
        | some (fname, some file) =>
            match file.get? (loc.line - 1) with
            | some rust_line =>
                .ok (⟨loc, false⟩, dbgList fmt line ++
                  [.locMark fname loc.line,
                   .locSrc (String.mk (trimStartChars rust_line.data))])
            | none => .error (.srcLineOOB loc)
        | some (fname, none) =>
            .ok (⟨loc, false⟩, dbgList fmt line ++
              (if 0 < fmt.verbosity then [.locMissing] else [])
                ++ [.locMark fname loc.line])
        | none => .error (.undefinedLoc loc)
  | .label l =>
      match l.kind with
      | .Local =>
          if fmt.keep_labels || used l.id then
            .ok (st, dbgList fmt line ++ [.labelLine l])
          else if !st.empty_line then
            .ok (⟨st.prev_loc, true⟩, dbgList fmt line ++ [.blank])
          else .ok (st, dbgList fmt line)
      | .Temp =>
          if fmt.keep_labels || used l.id then
            .ok (st, dbgList fmt line ++ [.labelLine l])
          else .ok (st, dbgList fmt line)
      | _ =>
          .ok (⟨st.prev_loc, false⟩, dbgList fmt line ++ [.stmt line fmt.full_name])
  | _ =>
      if fmt.simplify && (isDirective line || isDunno line) then
        .ok (st, dbgList fmt line)
      else
        .ok (⟨st.prev_loc, false⟩, dbgList fmt line ++ [.stmt line fmt.full_name])

/-- The renderer loop over a statement slice. -/
def dump_go (fmt : Format) (files : FilesMap) (used : String → Bool) :
    DumpState → List Statement → Except DumpFail (DumpState × List OutLine)
  | st, [] => .ok (st, [])
  | st, l :: rest =>
      match dump_step fmt files used st l with
      | .error e => .error e
      | .ok r =>
          match dump_go fmt files used r.1 rest with
          | .error e => .error e
          | .ok r2 => .ok (r2.1, r.2 ++ r2.2)

/-- The rendered slice, `range.map_or(stmts, |r| &stmts[r])`. -/
def sliceOf (stmts : List Statement) (range : Option (Nat × Nat)) : List Statement :=
  match range with
  | none => stmts
  | some r => (stmts.drop r.1).take (r.2 - r.1)

/-- The used-label set of one render call: empty under `keep_labels`,
otherwise the liveness predicate over the whole render scope. -/
def usedOf (fmt : Format) (slice : List Statement) : String → Bool :=
  if fmt.keep_labels then fun _ => false else label_used slice

/-- The emissions of one render call over the selected slice
(`dump_range_into_writer`, src/asm.rs line 146). -/
def dump_range_into_writer (fmt : Format) (files : FilesMap)
    (stmts : List Statement) (range : Option (Nat × Nat)) :
    Except DumpFail (List OutLine) :=
  Except.map (fun r => r.2)
    (dump_go fmt files (usedOf fmt (sliceOf stmts range)) DumpState.init
      (sliceOf stmts range))

def isDebug : OutLine → Bool
  | .debug _ => true
  | _ => false

/-- The visible emissions: everything except the raw debug trace. -/
def vis (out : List OutLine) : List OutLine :=
  out.filter (fun e => !isDebug e)

/-- Source-interleaving emissions (marker, source line, missing-file
comment). -/
def isLocEv : OutLine → Bool
  | .locMark _ _ => true
  | .locSrc _ => true
  | .locMissing => true
  | _ => false

/-- No two immediately adjacent blank lines. -/
def noAdjBlank (l : List OutLine) : Prop :=
  List.Chain' (fun a b => ¬(a = OutLine.blank ∧ b = OutLine.blank)) l

def c5fmt : Format := ⟨false, 0, false, false, false⟩

def c5slice : List Statement :=
  [.instruction "jmp" (some ".L1"), .label ⟨".L1", .Local⟩,
   .label ⟨".L2", .Local⟩]

/-! ## Source locator (`locate_sources`, src/asm.rs lines 250-315)

Paths are modelled as their component lists (`Path::components`), with
`"/"` standing for the root component; `exists?` is the file-system oracle
for `Path::exists`, `home` models `std::env::home_dir()`.  The two
process-terminating branches (`std::process::exit(1)` inside
`no_rust_src`, and the `panic` on a missing registry rewrite) are dedicated
result constructors. -/
/-- Rust's `Path::starts_with` on component lists. -/
def leadsWithSeg : List String → List String → Bool
  | [], _ => true
  | _ :: _, [] => false
  | a :: xs, b :: ys => a == b && leadsWithSeg xs ys

inductive LocateResult
  | found (p : List String)
  | notFound
  | exitNoRustSrc
  | panicRegistry (p : List String)
deriving DecidableEq, Repr

/-- The registry-reference detector of src/asm.rs lines 291-295: the index
of the first `cargo`/`.cargo` component, kept only when the component
fetched by `path.components().nth(ix)` — the component at that same index —
equals `registry`. -/
def registry_ix (path : List String) : Option Nat :=
  match position (fun c => c == "cargo" || c == ".cargo") path with
  | none => none
  | some ix =>
    match path.get? ix with
    | none => none
    | some c => if c == "registry" then some ix else none

def rustSrcSub : List String := ["lib", "rustlib", "src", "rust"]

def locate_sources (ex : List String → Bool) (home sysroot path : List String) :
    LocateResult :=
  if ex path then .found path
  else if leadsWithSeg ["/", "rustc"] path then
    let source := sysroot ++ rustSrcSub ++ path.drop 3
    if ex source then .found source else .exitNoRustSrc
  else if leadsWithSeg ["/", "private", "tmp"] path
      && path.any (fun c => c == "library") then
    let source := sysroot ++ rustSrcSub ++ path.drop 5
    if ex source then .found source else .exitNoRustSrc
  else
    match registry_ix path with
    | some ix =>
      let source := home ++ [".cargo"] ++ path.drop ix
      if ex source then .found source else .panicRegistry path
    | none => .notFound

def c3path : List String :=
  ["/", "cargo", "registry", "src", "github.com-1ecc6299db9ec823",
   "hashbrown-0.12.3", "src", "map.rs"]

def c9fmt : Format := ⟨false, 0, true, false, false⟩

/-! ## Parser driver (`parse_file`, src/asm.rs lines 21-41)

`parse_statement` lives in the missing `asm/statements.rs`; it is the
oracle parameter `p`, with `p input = some (stmt, rest)` standing for a
successful nom parse leaving `rest`.  `many0` mirrors nom's `many0`
combinator: collect until the inner parser fails, erroring out if an
iteration consumes nothing; the fuel argument (one more than the input
length) only bounds the structural recursion and never runs out, because
every accepted iteration consumes at least one character. -/
inductive ParseFail
  | leftovers (s : String)
  | leftoversHead (s : String)
  | parseErr
deriving DecidableEq, Repr

def many0 (p : String → Option (Statement × String)) :
    Nat → String → Option (List Statement × String)
  | fuel, input =>
    match p input with
    | none => some ([], input)
    | some (stmt, rest) =>
      if rest.length < input.length then
        match fuel with
        | 0 => none
        | fuel' + 1 => (many0 p fuel' rest).map fun r => (stmt :: r.1, r.2)
      else none

/-- The first 200 characters (the byte slice up to
`char_indices().nth(200)`); total here — a remainder of at least 1000
bytes always has more than 200 characters, so the source's `expect`
cannot fire. -/
def take200 (s : String) : String := String.mk (s.data.take 200)

def parse_file (p : String → Option (Statement × String)) (input : String) :
    Except ParseFail (List Statement) :=
  match many0 p (input.length + 1) input with
  | some (stmts, rem) =>
    if rem = "" then .ok stmts
    else if rem.utf8ByteSize < 1000 then .error (.leftovers rem)
    else .error (.leftoversHead (take200 rem))
  | none => .error .parseErr

/-- A concrete statement parser: consume one leading `a` as a blank
statement. -/
def cexParse : String → Option (Statement × String) :=
  fun s =>
    match s.data with
    | 'a' :: rest => some (.nothing, String.mk rest)
    | _ => none

/-! ## IPC server (`handle_request` / `start_server`, src/ipc.rs)

One connection is one received line (`read_line` into a cleared buffer).
Socket and write failures are outside the model; `handle_request` is the
pure request-to-response function, with `outcome = none` standing for the
`Err(_)` value handed back to the loop (which logs and continues) and the
`dump` write standing for `dump_range_into_writer` streaming the selected
range to the connection. -/
def MSG_REQUEST : String := "Request: "

def MSG_STOP : String := "Stop\n"

def malformedMsg : String := "Error: Malformed Message Expected:\nRequest: idx\n"

def oorMsg (index : Nat) : String :=
  "Error: the requested index " ++ toString index ++ " is not found\n"

/-- Rust's `str::split_once` on character lists: split at the first
occurrence of `pat`, returning the parts before and after it. -/
def splitOnceChars (pat : List Char) : List Char → Option (List Char × List Char)
  | [] => if leadsWith pat [] then some ([], ([] : List Char).drop pat.length) else none
  | c :: t =>
    if leadsWith pat (c :: t) then some ([], (c :: t).drop pat.length)
    else (splitOnceChars pat t).map fun r => (c :: r.1, r.2)

inductive WireWrite
  | msg (s : String)
  | dump (r : Nat × Nat)
deriving DecidableEq, Repr

inductive ServerDirective
  | Continue
  | Stop
deriving DecidableEq, Repr

structure HandleResult where
  writes : List WireWrite
  outcome : Option ServerDirective
deriving DecidableEq, Repr

/-- The range used to answer request `index`,
`items.values().nth(index)`. -/
def ipc_nth_range (items : List (Item × (Nat × Nat))) (index : Nat) :
    Option (Nat × Nat) :=
  (items.map fun e => e.2).get? index

/-- The request decoding of src/ipc.rs lines 111-114:
`buffer.trim().split_once("Request: ")` then `parse::<usize>` on the part
after the marker. -/
def reqParse (line : String) : Option Nat :=
  match splitOnceChars MSG_REQUEST.data (trimChars line.data) with
  | none => none
  | some r => parseUsize r.2

def handle_request (items : List (Item × (Nat × Nat))) (line : String) :
    HandleResult :=
  if line = MSG_STOP then ⟨[], some .Stop⟩
  else
    match reqParse line with
    | none => ⟨[.msg malformedMsg], none⟩
    | some index =>
      match ipc_nth_range items index with
      | none => ⟨[.msg (oorMsg index)], none⟩
      | some r => ⟨[.dump r], some .Continue⟩

/-- The accept loop of `start_server` (src/ipc.rs lines 70-83) over the
sequence of incoming request lines: collect each connection's writes,
continuing on `Continue` and on errors, stopping on `Stop`. -/
def start_server (items : List (Item × (Nat × Nat))) :
    List String → List (List WireWrite)
  | [] => []
  | line :: rest =>
    let r := handle_request items line
    match r.outcome with
    | some .Stop => []
    | _ => r.writes :: start_server items rest

def c4items : List (Item × (Nat × Nat)) := [(⟨"f", "f", 0, 1⟩, (0, 1))]

/-! ## Finder serialization (`serialize`, src/select.rs lines 147-157) -/
def DELIMITER : String := ": "

/-- Format `{index:width$}`: the index right-aligned in a space-padded
field. -/
def fmtIndex (width ix : Nat) : String :=
  String.mk (List.replicate (width - (toString ix).length) ' ') ++ toString ix

/-- The `for (index, item) in items.keys().enumerate()` loop body of
`serialize`, with the running index made explicit. -/
def serialize_go (width : Nat) : Nat → List Item → List String
  | _, [] => []
  | index, item :: rest =>
      (fmtIndex width index ++ DELIMITER ++ item.name)
        :: serialize_go width (index + 1) rest

/-- The finder lines of `serialize` over the map's key order.  (`ilog10`
is `Nat.log 10`; the source's `ilog10` panics on an empty map, which the
claims never hit.) -/
def serialize (items : List (Item × (Nat × Nat))) : List String :=
  serialize_go (Nat.log 10 items.length + 1) 0 (items.map fun e => e.1)

def c8items : List (Item × (Nat × Nat)) :=
  [(⟨"first()", "first154232", 0, 0⟩, (0, 1)),
   (⟨"second()", "second63452", 1, 0⟩, (1, 2))]

/-! ## Goal dispatcher (`get_dump_range`, src/lib.rs lines 129-202)

`ToDump` comes from the missing `opts.rs`; the variants below are the ones
`lib.rs` matches on.  Process exits (`safeprintln` + `exit(1)`, and the
exits inside `suggest_name`) and the unreachable interactive `panic` are
dedicated result constructors; `.whole` is the `None` result meaning
"print the whole file". -/
inductive ToDump
  | Everything
  | ByIndex (value : Nat)
  | Function (function : String) (nth : Option Nat)
  | Interactive
  | Unspecified
deriving DecidableEq, Repr

inductive GdrResult
  | range (r : Nat × Nat)
  | whole
  | exitIndexOOB
  | exitNoMatches
  | suggestExit
  | panicInteractive
deriving DecidableEq, Repr

def get_dump_range (full_name : Bool) (goal : ToDump)
    (items : List (Item × (Nat × Nat))) : GdrResult :=
  if items.length = 1 then
    match items with
    | e :: _ => .range e.2
    | [] => .whole
  else
    match goal with
    | .Everything => .whole
    | .ByIndex value =>
      match (items.map fun e => e.2).get? value with
      | some r => .range r
      | none => .exitIndexOOB
    | .Function f nth =>
      let filtered := items.filter fun e => substrOf f.data e.1.name.data
      if nth = none ∧ filtered.length = 1 then
        match filtered with
        | e :: _ => .range e.2
        | [] => .whole
      else
        match nth with
        | some k =>
          match filtered.get? k with
          | some e => .range e.2
          | none => .exitIndexOOB
        | none =>
          if filtered.isEmpty then .exitNoMatches else .suggestExit
    | .Interactive => .panicInteractive
    | .Unspecified => .suggestExit

/-! ## Theorems -/

theorem position_spec {p : α → Bool} :
    ∀ {l : List α} {ix : Nat}, position p l = some ix →
      ∃ c, l.get? ix = some c ∧ p c = true := by
  intro l
  induction l with
  | nil => intro ix h; simp [position] at h
  | cons a t ih =>
    intro ix h
    simp only [position] at h
    by_cases hp : p a = true
    · simp [hp] at h
      subst h
      exact ⟨a, rfl, hp⟩
    · simp [hp] at h
      obtain ⟨j, hj, rfl⟩ := h
      obtain ⟨c, hc, hcp⟩ := ih hj
      exact ⟨c, by simpa using hc, hcp⟩

theorem mem_btreeInsert {k : Item} {v : Nat × Nat} :
    ∀ {m : List (Item × (Nat × Nat))} {e}, e ∈ btreeInsert k v m →
      e = (k, v) ∨ e ∈ m := by
  intro m
  induction m with
  | nil => intro e h; simpa [btreeInsert] using h
  | cons a t ih =>
    intro e h
    simp only [btreeInsert] at h
    cases hc : itemCmp k a.1 with
    | lt => rw [hc] at h; simp only [List.mem_cons] at h ⊢; tauto
    | eq => rw [hc] at h; simp only [List.mem_cons] at h ⊢; tauto
    | gt =>
      rw [hc] at h
      simp only [List.mem_cons] at h ⊢
      rcases h with h | h
      · tauto
      · rcases ih h with h' | h' <;> tauto

theorem mem_itemMapOf {l : List (Item × (Nat × Nat))} {e} :
    e ∈ itemMapOf l → e ∈ l := by
  suffices h : ∀ (l : List (Item × (Nat × Nat))) (m : List (Item × (Nat × Nat))) e,
      e ∈ l.foldl (fun m e => btreeInsert e.1 e.2 m) m → e ∈ m ∨ e ∈ l by
    intro hmem
    rcases h l [] e hmem with h' | h'
    · simp at h'
    · exact h'
  intro l
  induction l with
  | nil => intro m e h; simp at h; exact Or.inl h
  | cons a t ih =>
    intro m e h
    simp only [List.foldl_cons] at h
    rcases ih _ e h with h' | h'
    · rcases mem_btreeInsert h' with h'' | h''
      · right; simp [h'']
      · exact Or.inl h''
    · right; simp [h']

/-! ## Claims C1 and C2: boundary heuristic and range invariants -/
/-- In any branch of `find_step` other than the two boundary moves and the
end-of-function insertion, `sec_start` and `res` are unchanged: the step
either moves the boundary to `ix`, or rewrites only `item`/`names`, or
closes the open item by appending `(item, sec_start..ix)` to `res`. -/
theorem find_step_shape (isG isE : Statement → Bool)
    (dem : String → Option (String × String)) (lines : List Statement)
    (ix : Nat) (l : Statement) (st : FIState) :
    (find_step isG isE dem lines ix l st = { st with sec_start := ix })
    ∨ (∃ it nm, find_step isG isE dem lines ix l st = { st with item := it, names := nm })
    ∨ (∃ it, st.item = some it ∧
        find_step isG isE dem lines ix l st =
          { st with item := none,
                    res := st.res ++ [({ it with len := ix - it.len }, (st.sec_start, ix))] }) := by
  have hself : st = { st with item := st.item, names := st.names } := rfl
  unfold find_step
  repeat' split
  all_goals first
    | exact Or.inl rfl
    | exact Or.inr (Or.inr ⟨_, by assumption, rfl⟩)
    | exact Or.inr (Or.inl ⟨_, _, rfl⟩)

/-- When the global-label condition (src/asm.rs line 69) does not fire and
the statement is not a section start, `sec_start` is left unchanged by the
step. -/
theorem find_step_sec_start_of_no_gap (isG isE : Statement → Bool)
    (dem : String → Option (String × String)) (lines : List Statement)
    (ix : Nat) (l : Statement) (st : FIState)
    (hsec : isSectionStart l = false)
    (hgap : (isG l && decide (st.sec_start + 3 < ix)) = false) :
    (find_step isG isE dem lines ix l st).sec_start = st.sec_start := by
  unfold find_step
  rw [if_neg (by simp [hsec]), if_neg (by simp [hgap])]
  repeat' split
  all_goals rfl

/-- C1 (amended): in `find_items`' scan, a statement at position `ix` that
is not a section start and satisfies `is_global` moves the section boundary
to `ix` exactly when `sec_start + 3 < ix`, i.e. when the current section
start is more than 3 (not 2) statements behind the current index; for
smaller gaps the boundary is unchanged. -/
theorem find_step_global_gap (isG isE : Statement → Bool)
    (dem : String → Option (String × String)) (lines : List Statement)
    (ix : Nat) (l : Statement) (st : FIState)
    (hsec : isSectionStart l = false) (hglob : isG l = true) :
    ((find_step isG isE dem lines ix l st).sec_start ≠ st.sec_start
        ↔ st.sec_start + 3 < ix)
    ∧ (st.sec_start + 3 < ix →
        (find_step isG isE dem lines ix l st).sec_start = ix) := by
  by_cases hlt : st.sec_start + 3 < ix
  · have hres : (find_step isG isE dem lines ix l st).sec_start = ix := by
      unfold find_step
      rw [if_neg (by simp [hsec]), if_pos (by simp [hglob, hlt])]
    exact ⟨⟨fun _ => hlt, fun _ => by rw [hres]; omega⟩, fun _ => hres⟩
  · have hres := find_step_sec_start_of_no_gap isG isE dem lines ix l st hsec
      (by simp [hglob, hlt])
    exact ⟨by simp [hres, hlt], fun h => absurd h hlt⟩

/-- C1 (counterexample to the claim as stated): in `cexLinesC1` the
statement at index 3 is a global-symbol statement, no higher-priority rule
applies to it, and the section start current at that point (0) is more than
2 statements behind (gap `3 - 0 > 2`), yet the scan does not take the
boundary: after the whole scan `sec_start` is still 0, not 3. -/
theorem find_step_global_gap_cex :
    isSectionStart (Statement.label ⟨"g", .Global⟩) = false
    ∧ cexGlobal (Statement.label ⟨"g", .Global⟩) = true
    ∧ cexLinesC1.get? 3 = some (Statement.label ⟨"g", .Global⟩)
    ∧ (find_loop cexGlobal cexEnd cexDem cexLinesC1 0 (cexLinesC1.take 3)
        .init).sec_start = 0
    ∧ 3 - (find_loop cexGlobal cexEnd cexDem cexLinesC1 0 (cexLinesC1.take 3)
        .init).sec_start > 2
    ∧ (find_loop cexGlobal cexEnd cexDem cexLinesC1 0 cexLinesC1
        .init).sec_start = 0 := by
  refine ⟨rfl, rfl, rfl, rfl, ?_, rfl⟩
  decide

/-- C1 witness: the amended rule applied at a concrete gap of 4. -/
theorem find_step_global_gap_wit :
    (find_step cexGlobal cexEnd cexDem cexLinesC1 4
      (Statement.label ⟨"g", .Global⟩) .init).sec_start = 4 :=
  (find_step_global_gap cexGlobal cexEnd cexDem cexLinesC1 4
    (Statement.label ⟨"g", .Global⟩) .init rfl rfl).2 (by decide)

theorem find_step_inv (isG isE : Statement → Bool)
    (dem : String → Option (String × String)) (lines : List Statement)
    (ix : Nat) (l : Statement) (st : FIState)
    (h : FIInv ix st) : FIInv (ix + 1) (find_step isG isE dem lines ix l st) := by
  obtain ⟨h1, h2, h3, h4⟩ := h
  rcases find_step_shape isG isE dem lines ix l st with hs | ⟨it, nm, hs⟩ | ⟨it, hit, hs⟩
  · rw [hs]; unfold FIInv; dsimp only
    refine ⟨Or.inr (Nat.lt_succ_self ix), Or.inr (by omega), ?_, h4⟩
    intro e he
    refine ⟨?_, (h3 e he).2⟩
    have := (h3 e he).1
    rcases h1 with h | h <;> omega
  · rw [hs]; unfold FIInv; dsimp only
    refine ⟨?_, Or.inr (by omega), h3, h4⟩
    rcases h1 with h | h
    · exact Or.inl h
    · exact Or.inr (by omega)
  · rw [hs]; unfold FIInv; dsimp only
    have hone : 1 ≤ ix := by
      rcases h2 with h2 | h2
    
      · rw [hit] at h2; cases h2
      · exact h2
    have hsec_lt : st.sec_start < ix := by
      rcases h1 with h | h <;> omega
    refine ⟨?_, Or.inr (by omega), ?_, ?_⟩
    · rcases h1 with h | h
      · exact Or.inl h
      · exact Or.inr (by omega)
    · intro e he
      simp only [List.mem_append, List.mem_singleton] at he
      rcases he with he | he
      · exact h3 e he
      · subst he; exact ⟨le_refl _, hsec_lt⟩
    · rw [List.pairwise_append]
      refine ⟨h4, by simp, ?_⟩
      intro a ha b hb
      simp only [List.mem_singleton] at hb
      subst hb
      exact (h3 a ha).1

theorem find_loop_inv (isG isE : Statement → Bool)
    (dem : String → Option (String × String)) (lines : List Statement) :
    ∀ (rest : List Statement) (ix : Nat) (st : FIState), FIInv ix st →
      FIInv (ix + rest.length) (find_loop isG isE dem lines ix rest st) := by
  intro rest
  induction rest with
  | nil => intro ix st h; simpa [find_loop] using h
  | cons a t ih =>
    intro ix st h
    simp only [find_loop, List.length_cons]
    have harith : ix + (t.length + 1) = (ix + 1) + t.length := by omega
    rw [harith]
    exact ih (ix + 1) _ (find_step_inv isG isE dem lines ix a st h)

/-- C2 (amended): for every statement sequence and every choice of the
external classifier/demangler oracles, every range recorded by `find_items`
(both in the final map and in scan-insertion order) is non-empty
(start strictly below end), and in the order the scan inserts them the
starts are non-decreasing.  Pairwise disjointness, by contrast, does not
hold in general (see the counterexample). -/
theorem find_items_ranges (isG isE : Statement → Bool)
    (dem : String → Option (String × String)) (lines : List Statement) :
    (∀ e ∈ find_items isG isE dem lines, e.2.1 < e.2.2)
    ∧ (∀ e ∈ find_items_list isG isE dem lines, e.2.1 < e.2.2)
    ∧ (find_items_list isG isE dem lines).Pairwise startLE := by
  have hinit : FIInv 0 FIState.init := by
    refine ⟨Or.inl rfl, Or.inl rfl, ?_, ?_⟩
    · intro e he
      simp [FIState.init] at he
    · simp [FIState.init]
  have hinv := find_loop_inv isG isE dem lines lines 0 .init hinit
  obtain ⟨-, -, h3, h4⟩ := hinv
  refine ⟨?_, ?_, h4⟩
  · intro e he
    exact (h3 e (mem_itemMapOf he)).2
  · intro e he
    exact (h3 e he).2

/-- C2 (counterexample to the claim as stated): on `cexLinesC2` the map
produced by `find_items` holds two distinct items whose recorded ranges
`0..2` and `0..4` overlap, refuting pairwise non-overlap. -/
theorem find_items_ranges_cex :
    find_items cexGlobal cexEnd cexDem cexLinesC2 =
      [(⟨"foo", "foo", 0, 1⟩, (0, 2)), (⟨"foo", "foo", 1, 1⟩, (0, 4))]
    ∧ rangesOverlap (0, 2) (0, 4) = true := by
  constructor
  · decide
  · decide

/-- C2 witness: the amended invariants evaluated on the same concrete run:
the first recorded range `0..2` is non-empty. -/
theorem find_items_ranges_wit : (0 : Nat) < 2 :=
  (find_items_ranges cexGlobal cexEnd cexDem cexLinesC2).1
    (⟨"foo", "foo", 0, 1⟩, (0, 2)) (by decide)

/-- Closed form of a successful renderer step: it is silent (state
unchanged), emits one label definition line, emits one blank for a
suppressed `Local` label, emits a non-empty run of source-interleaving
events for a location directive, or emits the statement's default form. -/
theorem dump_step_cases (fmt : Format) (files : FilesMap) (used : String → Bool)
    (st : DumpState) (s : Statement) (r : DumpState × List OutLine)
    (h : dump_step fmt files used st s = .ok r) :
    (r = (st, dbgList fmt s))
    ∨ (∃ l, s = .label l ∧ (l.kind = .Local ∨ l.kind = .Temp)
        ∧ (fmt.keep_labels = true ∨ used l.id = true)
        ∧ r = (st, dbgList fmt s ++ [.labelLine l]))
    ∨ (∃ l, s = .label l ∧ l.kind = .Local ∧ fmt.keep_labels = false
        ∧ used l.id = false ∧ st.empty_line = false
        ∧ r = (⟨st.prev_loc, true⟩, dbgList fmt s ++ [.blank]))
    ∨ (∃ loc ems, s = .directive (.loc loc) ∧ ems ≠ []
        ∧ (∀ e ∈ ems, isLocEv e = true)
        ∧ r = (⟨loc, false⟩, dbgList fmt s ++ ems))
    ∨ ((∀ l, s = .label l → l.kind = .Global ∨ l.kind = .Unknown)
        ∧ r = (⟨st.prev_loc, false⟩, dbgList fmt s ++ [.stmt s fmt.full_name])) := by
  cases s with
  | label l =>
    cases hk : l.kind with
    | Local =>
      by_cases hc : (fmt.keep_labels || used l.id) = true
      · simp [dump_step, hk, hc, -List.append_assoc] at h
        exact Or.inr (Or.inl ⟨l, rfl, Or.inl hk, (Bool.or_eq_true _ _).mp hc,
          h.symm⟩)
      · rw [Bool.not_eq_true] at hc
        obtain ⟨hkeep, hused⟩ : fmt.keep_labels = false ∧ used l.id = false := by
          simpa using hc
        cases hemp : st.empty_line with
        | false =>
          simp [dump_step, hk, hc, hemp, -List.append_assoc] at h
          exact Or.inr (Or.inr (Or.inl ⟨l, rfl, hk, hkeep, hused, rfl,
            h.symm⟩))
        | true =>
          simp [dump_step, hk, hc, hemp, -List.append_assoc] at h
          exact Or.inl h.symm
    | Temp =>
      by_cases hc : (fmt.keep_labels || used l.id) = true
      · simp [dump_step, hk, hc, -List.append_assoc] at h
        exact Or.inr (Or.inl ⟨l, rfl, Or.inr hk, (Bool.or_eq_true _ _).mp hc,
          h.symm⟩)
      · rw [Bool.not_eq_true] at hc
        simp [dump_step, hk, hc, -List.append_assoc] at h
        exact Or.inl h.symm
    | Global =>
      simp [dump_step, hk, -List.append_assoc] at h
      refine Or.inr (Or.inr (Or.inr (Or.inr ⟨?_,
        h.symm⟩)))
      intro l' hl'
      cases hl'
      exact Or.inl hk
    | Unknown =>
      simp [dump_step, hk, -List.append_assoc] at h
      refine Or.inr (Or.inr (Or.inr (Or.inr ⟨?_,
        h.symm⟩)))
      intro l' hl'
      cases hl'
      exact Or.inr hk
  | directive d =>
    cases d with
    | file f =>
      simp [dump_step, -List.append_assoc] at h
      exact Or.inl h.symm
    | loc loc =>
      cases hr : fmt.rust with
      | false =>
        simp [dump_step, hr, -List.append_assoc] at h
        exact Or.inl h.symm
      | true =>
        by_cases h0 : loc.line = 0
        · simp [dump_step, hr, h0, -List.append_assoc] at h
          exact Or.inl h.symm
        · by_cases hprev : loc = st.prev_loc
          · simp only [dump_step, hr, h0, Bool.not_true, Bool.false_eq_true,
              if_false, if_true, if_neg h0] at h
            rw [if_pos hprev] at h
            simp only [Except.ok.injEq] at h
            exact Or.inl h.symm
          · simp only [dump_step, hr, h0, Bool.not_true, Bool.false_eq_true,
              if_false, if_true, if_neg h0] at h
            rw [if_neg hprev] at h
            cases hf : filesGet files loc.file with
            | none =>
              simp only [hf] at h
              simp at h
            | some entry =>
              obtain ⟨fname, content⟩ := entry
              cases content with
              | some file =>
                simp only [hf] at h
                cases hline : file.get? (loc.line - 1) with
                | none =>
                  simp only [hline] at h
                  simp at h
                | some rust_line =>
                  simp only [hline, Except.ok.injEq] at h
                  refine Or.inr (Or.inr (Or.inr (Or.inl
                    ⟨loc, [.locMark fname loc.line,
                      .locSrc (String.mk (trimStartChars rust_line.data))],
                      rfl, by simp, ?_,
                      h.symm⟩)))
                  intro e he
                  simp only [List.mem_cons, List.mem_singleton,
                    List.not_mem_nil, or_false] at he
                  rcases he with he | he <;> simp [he, isLocEv]
              | none =>
                simp only [hf, Except.ok.injEq] at h
                refine Or.inr (Or.inr (Or.inr (Or.inl
                  ⟨loc, (if 0 < fmt.verbosity then [OutLine.locMissing] else [])
                      ++ [.locMark fname loc.line],
                    rfl, by split <;> simp, ?_,
                    by rw [← List.append_assoc]; exact h.symm⟩)))
                intro e he
                rw [List.mem_append] at he
                rcases he with he | he
                · split at he
                  · simp only [List.mem_singleton] at he
                    simp [he, isLocEv]
                  · simp at he
                · simp only [List.mem_singleton] at he
                  simp [he, isLocEv]
    | sectionStart name =>
      by_cases hs : fmt.simplify = true
      · simp [dump_step, hs, isDirective, -List.append_assoc] at h
        exact Or.inl h.symm
      · rw [Bool.not_eq_true] at hs
        simp [dump_step, hs, isDirective, -List.append_assoc] at h
        exact Or.inr (Or.inr (Or.inr (Or.inr
          ⟨(by intro l' hl'; cases hl'),
            h.symm⟩)))
    | set t =>
      by_cases hs : fmt.simplify = true
      · simp [dump_step, hs, isDirective, -List.append_assoc] at h
        exact Or.inl h.symm
      · rw [Bool.not_eq_true] at hs
        simp [dump_step, hs, isDirective, -List.append_assoc] at h
        exact Or.inr (Or.inr (Or.inr (Or.inr
          ⟨(by intro l' hl'; cases hl'),
            h.symm⟩)))
    | subsectionsViaSym =>
      by_cases hs : fmt.simplify = true
      · simp [dump_step, hs, isDirective, -List.append_assoc] at h
        exact Or.inl h.symm
      · rw [Bool.not_eq_true] at hs
        simp [dump_step, hs, isDirective, -List.append_assoc] at h
        exact Or.inr (Or.inr (Or.inr (Or.inr
          ⟨(by intro l' hl'; cases hl'),
            h.symm⟩)))
    | generic g =>
      by_cases hs : fmt.simplify = true
      · simp [dump_step, hs, isDirective, -List.append_assoc] at h
        exact Or.inl h.symm
      · rw [Bool.not_eq_true] at hs
        simp [dump_step, hs, isDirective, -List.append_assoc] at h
        exact Or.inr (Or.inr (Or.inr (Or.inr
          ⟨(by intro l' hl'; cases hl'),
            h.symm⟩)))
  | instruction m args =>
    simp [dump_step, isDirective, isDunno, -List.append_assoc] at h
    exact Or.inr (Or.inr (Or.inr (Or.inr
      ⟨(by intro l' hl'; cases hl'),
        h.symm⟩)))
  | dunno t =>
    by_cases hs : fmt.simplify = true
    · simp [dump_step, hs, isDunno, isDirective, -List.append_assoc] at h
      exact Or.inl h.symm
    · rw [Bool.not_eq_true] at hs
      simp [dump_step, hs, isDunno, isDirective, -List.append_assoc] at h
      exact Or.inr (Or.inr (Or.inr (Or.inr
        ⟨(by intro l' hl'; cases hl'),
          h.symm⟩)))
  | nothing =>
    simp [dump_step, isDirective, isDunno, -List.append_assoc] at h
    exact Or.inr (Or.inr (Or.inr (Or.inr
      ⟨(by intro l' hl'; cases hl'),
        h.symm⟩)))

theorem vis_append (a b : List OutLine) : vis (a ++ b) = vis a ++ vis b := by
  simp [vis, List.filter_append]

theorem vis_dbgList (fmt : Format) (s : Statement) : vis (dbgList fmt s) = [] := by
  unfold vis dbgList
  split <;> simp [isDebug]

theorem vis_of_no_debug {l : List OutLine} (h : ∀ e ∈ l, isDebug e = false) :
    vis l = l := by
  unfold vis
  rw [List.filter_eq_self]
  intro a ha
  simp [h a ha]

theorem vis_dbg_single (fmt : Format) (s : Statement) (x : OutLine)
    (hx : isDebug x = false) : vis (dbgList fmt s ++ [x]) = [x] := by
  rw [vis_append, vis_dbgList]
  simp [vis, List.filter_cons, hx]

theorem getLast?_mem_self : ∀ {l : List OutLine} {a : OutLine},
    l.getLast? = some a → a ∈ l := by
  intro l
  induction l with
  | nil => intro a h; simp at h
  | cons x t ih =>
    intro a h
    cases t with
    | nil =>
      simp only [List.getLast?_singleton, Option.some.injEq] at h
      simp [h]
    | cons y u =>
      rw [List.getLast?_cons_cons] at h
      exact List.mem_cons_of_mem _ (ih h)

theorem noAdjBlank_of_no_blank {l : List OutLine}
    (h : ∀ e ∈ l, e ≠ OutLine.blank) : noAdjBlank l := by
  induction l with
  | nil => exact List.chain'_nil
  | cons a t ih =>
    rw [noAdjBlank, List.chain'_cons']
    refine ⟨?_, ih fun e he => h e (List.mem_cons_of_mem _ he)⟩
    intro y _ hc
    exact h a (List.mem_cons_self _ _) hc.1

/-- The blank-collapsing invariant of one renderer step: the visible output
has no adjacent blanks, it can begin with a blank only if the incoming
`empty_line` flag was clear, and when the outgoing flag is clear the
visible output does not end in a blank (and if it is empty the incoming
flag was already clear). -/
theorem dump_step_blank_inv (fmt : Format) (files : FilesMap)
    (used : String → Bool) (st : DumpState) (s : Statement)
    (r : DumpState × List OutLine)
    (h : dump_step fmt files used st s = .ok r) :
    noAdjBlank (vis r.2)
    ∧ (∀ y, (vis r.2).head? = some y → y = OutLine.blank → st.empty_line = false)
    ∧ (r.1.empty_line = false →
        (vis r.2 = [] → st.empty_line = false)
        ∧ (∀ x, (vis r.2).getLast? = some x → x ≠ OutLine.blank)) := by
  rcases dump_step_cases fmt files used st s r h with
    hr | ⟨l, hs, hk, hc, hr⟩ | ⟨l, hs, hk, hkeep, hused, hemp, hr⟩
      | ⟨loc, ems, hs, hne, hloc, hr⟩ | ⟨hnl, hr⟩
  · subst hr
    simp only [vis_dbgList]
    refine ⟨List.chain'_nil, by simp, ?_⟩
    intro he
    exact ⟨fun _ => he, by simp⟩
  · subst hr
    rw [vis_dbg_single fmt s (.labelLine l) rfl]
    refine ⟨by simp [noAdjBlank], ?_, ?_⟩
    · intro y hy hb
      simp at hy
      subst hy
      cases hb
    · intro he
      refine ⟨by simp, ?_⟩
      intro x hx
      simp at hx
      subst hx
      simp
  · subst hr
    rw [vis_dbg_single fmt s .blank rfl]
    refine ⟨by simp [noAdjBlank], ?_, ?_⟩
    · intro y _ _
      exact hemp
    · intro he
      simp at he
  · subst hr
    have hnodbg : ∀ e ∈ ems, isDebug e = false := by
      intro e he
      have := hloc e he
      cases e <;> simp_all [isLocEv, isDebug]
    have hnoblank : ∀ e ∈ ems, e ≠ OutLine.blank := by
      intro e he hb
      subst hb
      have := hloc _ he
      simp [isLocEv] at this
    have hv : vis (dbgList fmt s ++ ems) = ems := by
      rw [vis_append, vis_dbgList, List.nil_append]
      exact vis_of_no_debug hnodbg
    simp only [hv]
    refine ⟨noAdjBlank_of_no_blank hnoblank, ?_, ?_⟩
    · intro y hy hb
      subst hb
      have : OutLine.blank ∈ ems := by
        cases ems with
        | nil => simp at hy
        | cons a t => simp at hy; subst hy; exact List.mem_cons_self _ _
      exact absurd rfl (hnoblank _ this)
    · intro _
      refine ⟨fun hemscontra => absurd hemscontra hne, ?_⟩
      intro x hx
      exact hnoblank x (getLast?_mem_self hx)
  · subst hr
    rw [vis_dbg_single fmt s (.stmt s fmt.full_name) rfl]
    refine ⟨by simp [noAdjBlank], ?_, ?_⟩
    · intro y hy hb
      simp at hy
      subst hy
      cases hb
    · intro _
      refine ⟨by simp, ?_⟩
      intro x hx
      simp at hx
      subst hx
      simp

/-- The blank-collapsing invariant over a whole render loop. -/
theorem dump_go_blank_inv (fmt : Format) (files : FilesMap)
    (used : String → Bool) :
    ∀ (slice : List Statement) (st : DumpState) (r : DumpState × List OutLine),
      dump_go fmt files used st slice = .ok r →
      noAdjBlank (vis r.2)
      ∧ (∀ y, (vis r.2).head? = some y → y = OutLine.blank → st.empty_line = false)
      ∧ (r.1.empty_line = false →
          (vis r.2 = [] → st.empty_line = false)
          ∧ (∀ x, (vis r.2).getLast? = some x → x ≠ OutLine.blank)) := by
  intro slice
  induction slice with
  | nil =>
    intro st r h
    simp only [dump_go, Except.ok.injEq] at h
    subst h
    refine ⟨List.chain'_nil, by simp [vis], ?_⟩
    intro he
    exact ⟨fun _ => he, by simp [vis]⟩
  | cons a t ih =>
    intro st r h
    cases hstep : dump_step fmt files used st a with
    | error e =>
      simp only [dump_go, hstep] at h
      cases h
    | ok r1 =>
      cases hrest : dump_go fmt files used r1.1 t with
      | error e =>
        simp only [dump_go, hstep, hrest] at h
        cases h
      | ok r2 =>
        simp only [dump_go, hstep, hrest, Except.ok.injEq] at h
        subst h
        obtain ⟨S1, S2, S3⟩ := dump_step_blank_inv fmt files used st a r1 hstep
        obtain ⟨I1, I2, I3⟩ := ih r1.1 r2 hrest
        dsimp only
        rw [vis_append]
        refine ⟨?_, ?_, ?_⟩
        · rw [noAdjBlank, List.chain'_append]
          refine ⟨S1, I1, ?_⟩
          intro x hx y hy
          rintro ⟨hxb, hyb⟩
          have hempty : r1.1.empty_line = false :=
            I2 y (Option.mem_def.mp hy) hyb
          exact (S3 hempty).2 x (Option.mem_def.mp hx) hxb
        · intro y hy hb
          rw [List.head?_append] at hy
          cases h1 : (vis r1.2).head? with
          | some z =>
            rw [h1] at hy
            have : z = y := by
              simpa [Option.or] using hy
            subst this
            exact S2 z h1 hb
          | none =>
            rw [h1] at hy
            simp only [Option.none_or] at hy
            have hempty : r1.1.empty_line = false := I2 y hy hb
            have hnil : vis r1.2 = [] := List.head?_eq_none_iff.mp h1
            exact (S3 hempty).1 hnil
        · intro hre
          obtain ⟨I3a, I3b⟩ := I3 hre
          constructor
          · intro hnil
            rw [List.append_eq_nil] at hnil
            exact (S3 (I3a hnil.2)).1 hnil.1
          · intro x hx hxb
            cases h2 : vis r2.2 with
            | nil =>
              rw [h2, List.append_nil] at hx
              exact (S3 (I3a h2)).2 x hx hxb
            | cons b u =>
              rw [List.getLast?_append_of_ne_nil _ (by simp [h2])] at hx
              exact I3b x hx hxb

theorem labelLine_not_mem_dbgList (fmt : Format) (s : Statement) (l : Label) :
    OutLine.labelLine l ∉ dbgList fmt s := by
  unfold dbgList
  split <;> simp

/-- A kept `Local`/`Temp` label emits exactly its definition line. -/
theorem dump_step_label_emit (fmt : Format) (files : FilesMap)
    (used : String → Bool) (st : DumpState) (l : Label)
    (hk : l.kind = .Local ∨ l.kind = .Temp)
    (hc : fmt.keep_labels = true ∨ used l.id = true) :
    dump_step fmt files used st (.label l) =
      .ok (st, dbgList fmt (.label l) ++ [.labelLine l]) := by
  have hcb : (fmt.keep_labels || used l.id) = true := (Bool.or_eq_true _ _).mpr hc
  rcases hk with hk | hk <;> simp [dump_step, hk, hcb]

/-- Step-level characterization of a label definition line in the output. -/
theorem dump_step_labelLine_mem (fmt : Format) (files : FilesMap)
    (used : String → Bool) (st : DumpState) (s : Statement)
    (r : DumpState × List OutLine) (l : Label)
    (hk : l.kind = .Local ∨ l.kind = .Temp)
    (h : dump_step fmt files used st s = .ok r) :
    (OutLine.labelLine l ∈ r.2 ↔
      (s = .label l ∧ (fmt.keep_labels = true ∨ used l.id = true))) := by
  constructor
  · intro hmem
    rcases dump_step_cases fmt files used st s r h with
      hr | ⟨l', hs, hk', hc', hr⟩ | ⟨l', hs, _, _, _, _, hr⟩
        | ⟨loc, ems, hs, _, hloc, hr⟩ | ⟨_, hr⟩
    · subst hr
      exact absurd hmem (labelLine_not_mem_dbgList fmt s l)
    · subst hr
      rw [List.mem_append] at hmem
      rcases hmem with hmem | hmem
      · exact absurd hmem (labelLine_not_mem_dbgList fmt s l)
      · simp only [List.mem_singleton, OutLine.labelLine.injEq] at hmem
        subst hmem
        exact ⟨hs, hc'⟩
    · subst hr
      rw [List.mem_append] at hmem
      rcases hmem with hmem | hmem
      · exact absurd hmem (labelLine_not_mem_dbgList fmt s l)
      · simp at hmem
    · subst hr
      rw [List.mem_append] at hmem
      rcases hmem with hmem | hmem
      · exact absurd hmem (labelLine_not_mem_dbgList fmt s l)
      · have := hloc _ hmem
        simp [isLocEv] at this
    · subst hr
      rw [List.mem_append] at hmem
      rcases hmem with hmem | hmem
      · exact absurd hmem (labelLine_not_mem_dbgList fmt s l)
      · simp at hmem
  · rintro ⟨hs, hc⟩
    subst hs
    rw [dump_step_label_emit fmt files used st l hk hc] at h
    simp only [Except.ok.injEq] at h
    subst h
    simp

/-- Scope-level characterization of a label definition line. -/
theorem dump_go_labelLine_mem (fmt : Format) (files : FilesMap)
    (used : String → Bool) (l : Label)
    (hk : l.kind = .Local ∨ l.kind = .Temp) :
    ∀ (slice : List Statement) (st : DumpState) (r : DumpState × List OutLine),
      dump_go fmt files used st slice = .ok r →
      (OutLine.labelLine l ∈ r.2 ↔
        (Statement.label l ∈ slice
          ∧ (fmt.keep_labels = true ∨ used l.id = true))) := by
  intro slice
  induction slice with
  | nil =>
    intro st r h
    simp only [dump_go, Except.ok.injEq] at h
    subst h
    simp
  | cons a t ih =>
    intro st r h
    cases hstep : dump_step fmt files used st a with
    | error e =>
      simp only [dump_go, hstep] at h
      cases h
    | ok r1 =>
      cases hrest : dump_go fmt files used r1.1 t with
      | error e =>
        simp only [dump_go, hstep, hrest] at h
        cases h
      | ok r2 =>
        simp only [dump_go, hstep, hrest, Except.ok.injEq] at h
        subst h
        dsimp only
        rw [List.mem_append,
          dump_step_labelLine_mem fmt files used st a r1 l hk hstep,
          ih r1.1 r2 hrest]
        constructor
        · rintro (⟨hs, hc⟩ | ⟨hm, hc⟩)
          · exact ⟨by simp [hs], hc⟩
          · exact ⟨List.mem_cons_of_mem _ hm, hc⟩
        · rintro ⟨hm, hc⟩
          rw [List.mem_cons] at hm
          rcases hm with hm | hm
          · exact Or.inl ⟨hm.symm, hc⟩
          · exact Or.inr ⟨hm, hc⟩

theorem dump_range_ok (fmt : Format) (files : FilesMap) (stmts : List Statement)
    (range : Option (Nat × Nat)) (out : List OutLine)
    (h : dump_range_into_writer fmt files stmts range = .ok out) :
    ∃ r : DumpState × List OutLine,
      dump_go fmt files (usedOf fmt (sliceOf stmts range)) DumpState.init
        (sliceOf stmts range) = .ok r ∧ r.2 = out := by
  unfold dump_range_into_writer at h
  cases hg : dump_go fmt files (usedOf fmt (sliceOf stmts range)) DumpState.init
      (sliceOf stmts range) with
  | error e =>
    rw [hg] at h
    simp [Except.map] at h
  | ok r =>
    rw [hg] at h
    simp only [Except.map, Except.ok.injEq] at h
    exact ⟨r, rfl, h⟩

/-- C5: in a render scope, a `Local`/`Temp` label's definition line appears
in the output exactly when the label occurs in the scope and either
keep-labels mode is on or its identifier occurs as a substring of some
statement's referenceable text in the same scope; a suppressed `Temp`
label emits nothing (and changes no state); and the visible output never
holds two adjacent blank lines, so a run of suppressed non-Temp labels
yields at most one blank line. -/
theorem renderer_label_rules :
    (∀ (fmt : Format) (files : FilesMap) (stmts : List Statement)
        (range : Option (Nat × Nat)) (out : List OutLine) (l : Label),
      dump_range_into_writer fmt files stmts range = .ok out →
      (l.kind = .Local ∨ l.kind = .Temp) →
      (OutLine.labelLine l ∈ out ↔
        (Statement.label l ∈ sliceOf stmts range
          ∧ (fmt.keep_labels = true
              ∨ label_used (sliceOf stmts range) l.id = true))))
    ∧ (∀ (fmt : Format) (files : FilesMap) (used : String → Bool)
        (st : DumpState) (l : Label),
      l.kind = .Temp → fmt.keep_labels = false → used l.id = false →
      dump_step fmt files used st (.label l) =
        .ok (st, dbgList fmt (.label l)))
    ∧ (∀ (fmt : Format) (files : FilesMap) (stmts : List Statement)
        (range : Option (Nat × Nat)) (out : List OutLine),
      dump_range_into_writer fmt files stmts range = .ok out →
      noAdjBlank (vis out)) := by
  refine ⟨?_, ?_, ?_⟩
  · intro fmt files stmts range out l h hk
    obtain ⟨r, hg, hr⟩ := dump_range_ok fmt files stmts range out h
    subst hr
    rw [dump_go_labelLine_mem fmt files (usedOf fmt (sliceOf stmts range)) l hk
      (sliceOf stmts range) DumpState.init r hg]
    unfold usedOf
    by_cases hkeep : fmt.keep_labels = true
    · simp [hkeep]
    · rw [Bool.not_eq_true] at hkeep
      simp [hkeep]
  · intro fmt files used st l hk hkeep hused
    simp [dump_step, hk, hkeep, hused]
  · intro fmt files stmts range out h
    obtain ⟨r, hg, hr⟩ := dump_range_ok fmt files stmts range out h
    subst hr
    exact (dump_go_blank_inv fmt files (usedOf fmt (sliceOf stmts range))
      (sliceOf stmts range) DumpState.init r hg).1

/-- C5 witness: in a concrete scope where `.L1` is referenced by an
instruction argument and `.L2` is not, the render keeps `.L1`'s definition
line. -/
theorem renderer_label_rules_wit :
    OutLine.labelLine ⟨".L1", .Local⟩ ∈
      [OutLine.stmt (.instruction "jmp" (some ".L1")) false,
       OutLine.labelLine ⟨".L1", .Local⟩, OutLine.blank] :=
  ((renderer_label_rules.1 c5fmt [] c5slice none
      [OutLine.stmt (.instruction "jmp" (some ".L1")) false,
       OutLine.labelLine ⟨".L1", .Local⟩, OutLine.blank]
      ⟨".L1", .Local⟩ (by rfl) (Or.inl rfl)).mpr
    ⟨by decide, Or.inr (by decide)⟩)

theorem vis_nil : vis [] = [] := rfl

theorem vis_cons_of_nondebug (e : OutLine) (l : List OutLine)
    (h : isDebug e = false) : vis (e :: l) = e :: vis l := by
  simp [vis, List.filter_cons, h]

/-- C6: with source interleaving, a location directive with `line == 0` is
suppressed (no visible emission, no state change); one equal to the
previously emitted location is likewise suppressed; and rendering the same
location directive twice in a row is indistinguishable (visible output and
final state) from rendering it once. -/
theorem renderer_loc_rules :
    (∀ (fmt : Format) (files : FilesMap) (used : String → Bool)
        (st : DumpState) (loc : Loc), loc.line = 0 →
      dump_step fmt files used st (.directive (.loc loc)) =
        .ok (st, dbgList fmt (.directive (.loc loc))))
    ∧ (∀ (fmt : Format) (files : FilesMap) (used : String → Bool)
        (st : DumpState) (loc : Loc), loc = st.prev_loc →
      dump_step fmt files used st (.directive (.loc loc)) =
        .ok (st, dbgList fmt (.directive (.loc loc))))
    ∧ (∀ (fmt : Format) (files : FilesMap) (used : String → Bool)
        (st : DumpState) (loc : Loc),
      Except.map (fun r => (r.1, vis r.2))
        (dump_go fmt files used st
          [.directive (.loc loc), .directive (.loc loc)])
      = Except.map (fun r => (r.1, vis r.2))
        (dump_go fmt files used st [.directive (.loc loc)])) := by
  refine ⟨?_, ?_, ?_⟩
  · intro fmt files used st loc h0
    cases hr : fmt.rust with
    | false => simp [dump_step, hr]
    | true => simp [dump_step, hr, h0]
  · intro fmt files used st loc hp
    cases hr : fmt.rust with
    | false => simp [dump_step, hr]
    | true =>
      by_cases h0 : loc.line = 0
      · simp [dump_step, hr, h0]
      · simp [dump_step, hr, h0, hp]
  · intro fmt files used st loc
    cases hr : fmt.rust with
    | false => simp [dump_go, dump_step, hr, Except.map, vis_append, vis_dbgList]
    | true =>
      by_cases h0 : loc.line = 0
      · simp [dump_go, dump_step, hr, h0, Except.map, vis_append, vis_dbgList]
      · by_cases hp : loc = st.prev_loc
        · simp [dump_go, dump_step, hr, h0, hp, Except.map, vis_append, vis_dbgList]
        · cases hf : filesGet files loc.file with
          | none =>
            simp [dump_go, dump_step, hr, h0, hp, hf, Except.map]
          | some entry =>
            obtain ⟨fname, content⟩ := entry
            cases content with
            | some file =>
              cases hline : file.get? (loc.line - 1) with
              | none =>
                rw [List.get?_eq_getElem?] at hline
                simp [dump_go, dump_step, hr, h0, hp, hf, hline, Except.map]
              | some rl =>
                rw [List.get?_eq_getElem?] at hline
                simp [dump_go, dump_step, hr, h0, hp, hf, hline, Except.map,
                  vis_append, vis_dbgList, vis_cons_of_nondebug, vis_nil, isDebug]
            | none =>
              by_cases hv : 0 < fmt.verbosity
              · simp [dump_go, dump_step, hr, h0, hp, hf, hv, Except.map,
                  vis_append, vis_dbgList, vis_cons_of_nondebug, vis_nil, isDebug]
              · simp [dump_go, dump_step, hr, h0, hp, hf, hv, Except.map,
                  vis_append, vis_dbgList, vis_cons_of_nondebug, vis_nil, isDebug]

/-- C6 witness: a concrete `line == 0` location directive is suppressed. -/
theorem renderer_loc_rules_wit :
    dump_step c5fmt [] (fun _ => false) DumpState.init
      (.directive (.loc ⟨0, 0, none⟩)) =
      .ok (DumpState.init, dbgList c5fmt (.directive (.loc ⟨0, 0, none⟩))) :=
  renderer_loc_rules.1 c5fmt [] (fun _ => false) DumpState.init ⟨0, 0, none⟩ rfl

/-- The registry detector can never fire: the component it re-fetches at
the found index is the `cargo`/`.cargo` component itself, which is never
equal to `registry`. -/
theorem registry_ix_none (path : List String) : registry_ix path = none := by
  cases hp : position (fun c => c == "cargo" || c == ".cargo") path with
  | none => simp [registry_ix, hp]
  | some ix =>
    obtain ⟨c, hc, hpc⟩ := position_spec hp
    have hne : (c == "registry") = false := by
      rcases (Bool.or_eq_true _ _).mp hpc with h | h
      · have hcv : c = "cargo" := by simpa using h
        subst hcv
        decide
      · have hcv : c = ".cargo" := by simpa using h
        subst hcv
        decide
    rw [List.get?_eq_getElem?] at hc
    have hne' : c ≠ "registry" := by simpa using hne
    simp [registry_ix, hp, hc, hne']

/-- C3 (code defect): `locate_sources`' registry branch is dead code — the
detector re-reads the component at the index of the `cargo`/`.cargo`
component (instead of the one after it) and compares it with `registry`,
which can never hold — so a dependency-registry path that does not exist
verbatim on disk is answered with "not found" instead of being rewritten
against the home-directory registry cache (or aborting). -/
theorem locate_sources_registry_dead :
    (∀ path : List String, registry_ix path = none)
    ∧ locate_sources (fun _ => false) ["/", "home", "user"] ["/", "sysroot"]
        c3path = .notFound := by
  exact ⟨registry_ix_none, by decide⟩

/-- C9 (counterexample to the claim as stated): rendering a range holding a
location directive whose file index (7) has no file declaration does not
produce a typed boundary value — the renderer hits its `panic` at
src/asm.rs line 206, modelled here as the `Except.error` carrying
`undefinedLoc`. -/
theorem renderer_undefined_loc_cex :
    dump_range_into_writer c9fmt [] [.directive (.loc ⟨7, 10, none⟩)] none
      = .error (.undefinedLoc ⟨7, 10, none⟩) := by
  rfl

/-- C9 (amended): the locator answers a path matching no known layout with
the typed `notFound` value, but the renderer terminates with a panic
(`undefinedLoc`, not a typed recoverable result) on a location directive
whose file index has no corresponding file declaration. -/
theorem renderer_locator_failures :
    (∀ (fmt : Format) (files : FilesMap) (used : String → Bool)
        (st : DumpState) (loc : Loc),
      fmt.rust = true → loc.line ≠ 0 → loc ≠ st.prev_loc →
      filesGet files loc.file = none →
      dump_step fmt files used st (.directive (.loc loc)) =
        .error (.undefinedLoc loc))
    ∧ (∀ (ex : List String → Bool) (home sysroot path : List String),
      ex path = false →
      leadsWithSeg ["/", "rustc"] path = false →
      (leadsWithSeg ["/", "private", "tmp"] path
        && path.any (fun c => c == "library")) = false →
      locate_sources ex home sysroot path = .notFound) := by
  constructor
  · intro fmt files used st loc hr h0 hp hf
    simp [dump_step, hr, h0, hp, hf]
  · intro ex home sysroot path hex h1 h2
    simp [locate_sources, hex, h1, h2, registry_ix_none]

/-- C9 witness: the amended locator clause at a concrete unknown path. -/
theorem renderer_locator_failures_wit :
    locate_sources (fun _ => false) ["/", "home", "user"] ["/", "sysroot"]
      ["/", "work", "main.rs"] = .notFound :=
  renderer_locator_failures.2 (fun _ => false) ["/", "home", "user"]
    ["/", "sysroot"] ["/", "work", "main.rs"] rfl (by decide) (by decide)

/-- C7: `parse_file` returns a statement sequence exactly when the whole
input is consumed; on leftovers it returns an error carrying the literal
remainder when it is under 1000 bytes and the first-200-character prefix
otherwise — never a partial sequence. -/
theorem parse_file_consumes_all :
    (∀ (p : String → Option (Statement × String)) (input : String)
        (stmts : List Statement),
      parse_file p input = .ok stmts ↔
        many0 p (input.length + 1) input = some (stmts, ""))
    ∧ (∀ (p : String → Option (Statement × String)) (input : String)
        (stmts : List Statement) (rem : String),
      many0 p (input.length + 1) input = some (stmts, rem) → rem ≠ "" →
      rem.utf8ByteSize < 1000 →
      parse_file p input = .error (.leftovers rem))
    ∧ (∀ (p : String → Option (Statement × String)) (input : String)
        (stmts : List Statement) (rem : String),
      many0 p (input.length + 1) input = some (stmts, rem) → rem ≠ "" →
      ¬rem.utf8ByteSize < 1000 →
      parse_file p input = .error (.leftoversHead (take200 rem))) := by
  refine ⟨?_, ?_, ?_⟩
  · intro p input stmts
    constructor
    · intro h
      unfold parse_file at h
      cases hm : many0 p (input.length + 1) input with
      | none => rw [hm] at h; cases h
      | some r =>
        obtain ⟨st, rem⟩ := r
        rw [hm] at h
        dsimp only at h
        by_cases hrem : rem = ""
        · subst hrem
          simp at h
          subst h
          rfl
        · rw [if_neg hrem] at h
          split at h <;> cases h
    · intro h
      unfold parse_file
      rw [h]
      simp
  · intro p input stmts rem hm hne hlt
    unfold parse_file
    rw [hm]
    dsimp only
    rw [if_neg hne, if_pos hlt]
  · intro p input stmts rem hm hne hge
    unfold parse_file
    rw [hm]
    dsimp only
    rw [if_neg hne, if_neg hge]

/-- C7 witness: on `"ab"` the parser stops before `"b"`, and `parse_file`
reports the literal leftover `"b"`. -/
theorem parse_file_consumes_all_wit :
    parse_file cexParse "ab" = .error (.leftovers "b") :=
  parse_file_consumes_all.2.1 cexParse "ab" [.nothing] "b" (by decide)
    (by decide) (by decide)

theorem leadsWith_append : ∀ (p l m : List Char), leadsWith p l = true →
    leadsWith p (l ++ m) = true
  | [], _, _, _ => rfl
  | _ :: _, [], _, h => by simp [leadsWith] at h
  | a :: xs, b :: ys, m, h => by
    simp only [leadsWith, Bool.and_eq_true] at h
    simp only [List.cons_append, leadsWith, Bool.and_eq_true]
    exact ⟨h.1, leadsWith_append xs ys m h.2⟩

/-- C4 (amended): a received line other than `Stop\n` whose trimmed text
has no parsable `Request: `-split index gets exactly one write, the
malformed-message error line; a parsable index at or past the item count
gets exactly one write, the index-not-found error line; both error lines
begin with `Error: `; and in each such case the server loop goes on to the
next connection.  (A line can be served without matching the literal shape
`"Request: " <index>`: anything before the first `Request: ` marker is
discarded by `split_once`, and surrounding whitespace by `trim` — see the
counterexample.) -/
theorem handle_request_errors :
    (∀ (items : List (Item × (Nat × Nat))) (line : String),
      line ≠ MSG_STOP → reqParse line = none →
      handle_request items line = ⟨[.msg malformedMsg], none⟩)
    ∧ (∀ (items : List (Item × (Nat × Nat))) (line : String) (index : Nat),
      line ≠ MSG_STOP → reqParse line = some index →
      items.length ≤ index →
      handle_request items line = ⟨[.msg (oorMsg index)], none⟩)
    ∧ leadsWith "Error: ".data malformedMsg.data = true
    ∧ (∀ index : Nat, leadsWith "Error: ".data (oorMsg index).data = true)
    ∧ (∀ (items : List (Item × (Nat × Nat))) (line : String)
        (rest : List String),
      line ≠ MSG_STOP →
      start_server items (line :: rest)
        = (handle_request items line).writes :: start_server items rest) := by
  refine ⟨?_, ?_, by decide, ?_, ?_⟩
  · intro items line hstop hp
    simp [handle_request, hstop, hp]
  · intro items line index hstop hp hlen
    have hnone : ipc_nth_range items index = none := by
      unfold ipc_nth_range
      have hl : (items.map fun e => e.2).length ≤ index := by simpa using hlen
      exact List.get?_eq_none.mpr hl
    simp [handle_request, hstop, hp, hnone]
  · intro index
    have hd : (oorMsg index).data
        = "Error: the requested index ".data
          ++ ((toString index).data ++ " is not found\n".data) := by
      simp [oorMsg]
    rw [hd]
    exact leadsWith_append _ _ _ (by decide)
  · intro items line rest hstop
    unfold start_server
    cases hh : (handle_request items line).outcome with
    | none =>
      simp only [hh]
      cases rest <;> rfl
    | some d =>
      cases d with
      | Continue =>
        simp only [hh]
        cases rest <;> rfl
      | Stop =>
        exfalso
        unfold handle_request at hh
        rw [if_neg hstop] at hh
        cases hp : reqParse line with
        | none =>
          simp only [hp] at hh
          simp at hh
        | some index =>
          simp only [hp] at hh
          cases hn : ipc_nth_range items index with
          | none =>
            simp only [hn] at hh
            simp at hh
          | some r =>
            simp only [hn] at hh
            simp at hh

/-- C4 (counterexample to the claim as stated): the line
`" Request: 0\n"` is neither `Stop\n` nor of the shape
`"Request: " <index>` (it does not even start with the marker), so the
claim calls it malformed and requires an `Error: ` response — yet the
server trims it, finds the marker by `split_once`, and serves item 0 with
no error write. -/
theorem handle_request_cex :
    leadsWith "Request: ".data " Request: 0\n".data = false
    ∧ " Request: 0\n" ≠ MSG_STOP
    ∧ handle_request c4items " Request: 0\n" = ⟨[.dump (0, 1)], some .Continue⟩ := by
  refine ⟨by decide, by decide, by decide⟩

/-- C4 witness: a line with no request marker is answered with the
malformed-message error line. -/
theorem handle_request_errors_wit :
    handle_request c4items "hello\n" = ⟨[.msg malformedMsg], none⟩ :=
  handle_request_errors.1 c4items "hello\n" (by decide) (by decide)

theorem serialize_go_get? (width : Nat) :
    ∀ (l : List Item) (i n : Nat),
      (serialize_go width i l).get? n
        = (l.get? n).map fun it =>
            fmtIndex width (i + n) ++ DELIMITER ++ it.name := by
  intro l
  induction l with
  | nil => intro i n; simp [serialize_go]
  | cons a t ih =>
    intro i n
    cases n with
    | zero => simp [serialize_go]
    | succ m =>
      simp only [serialize_go, List.get?_cons_succ]
      rw [ih (i + 1) m]
      have harith : i + 1 + m = i + (m + 1) := by omega
      rw [harith]

/-- C8: for every item map and every `n` below the item count, the `n`-th
finder line and the range the IPC server uses to answer `Request: n` come
from the same map entry: the line shows that entry's key and the server
dumps that entry's range. -/
theorem serialize_ipc_aligned (items : List (Item × (Nat × Nat))) (n : Nat)
    (h : n < items.length) :
    ∃ it rng, items.get? n = some (it, rng)
      ∧ (serialize items).get? n
          = some (fmtIndex (Nat.log 10 items.length + 1) n
              ++ DELIMITER ++ it.name)
      ∧ ipc_nth_range items n = some rng := by
  obtain ⟨e, he⟩ : ∃ e, items.get? n = some e := by
    rw [List.get?_eq_getElem?]
    exact List.getElem?_eq_some_iff.mpr ⟨h, rfl⟩ |> fun h' => ⟨_, h'⟩
  refine ⟨e.1, e.2, by simpa using he, ?_, ?_⟩
  · unfold serialize
    rw [serialize_go_get? _ _ 0 n]
    rw [List.get?_map, he]
    simp
  · unfold ipc_nth_range
    rw [List.get?_map, he]
    rfl

/-- C8 witness: on a concrete two-item map, line 1 and the answer to
`Request: 1` both come from the second entry. -/
theorem serialize_ipc_aligned_wit :
    ∃ it rng, c8items.get? 1 = some (it, rng)
      ∧ (serialize c8items).get? 1
          = some (fmtIndex (Nat.log 10 c8items.length + 1) 1
              ++ DELIMITER ++ it.name)
      ∧ ipc_nth_range c8items 1 = some rng :=
  serialize_ipc_aligned c8items 1 (by decide)

/-- C10: whenever the item map holds exactly one item, `get_dump_range`
returns that item's range for every goal — including `Everything` (which
otherwise means "whole file"), an out-of-range `ByIndex`, and a `Function`
goal matching nothing — without inspecting the goal. -/
theorem get_dump_range_single (full_name : Bool) (goal : ToDump)
    (e : Item × (Nat × Nat)) :
    get_dump_range full_name goal [e] = .range e.2 := by
  simp [get_dump_range]

end ShowAsm
